import Mathlib

/-!
Verification of `app.py` (Suvichaar summariser-notes), a linear content
pipeline: notes image → extracted JSON record → sanitized DALL·E prompts →
per-slide image synthesis with bounded retries → S3 upload → CDN resized
URLs → SEO metadata → template filling.

Strings are modelled as `List Char`.  The external capabilities (Azure chat,
DALL·E, S3 upload) are modelled as explicit oracle functions passed in an
environment record: the embedding of each Python function is the pure
response-processing logic of the source, with every `requests`/`boto3` call
replaced by a lookup into the oracle.
-/

/-- Strings are modelled as lists of characters. -/
abbrev Cs := List Char

/-- Python whitespace for `str.strip()` and the regex class `\s`
(ASCII fragment: space, tab, newline, carriage return, vertical tab, form feed). -/
def wsChar (c : Char) : Bool :=
  c = ' ' || c = '\t' || c = '\n' || c = '\r' || c = '\x0b' || c = '\x0c'

/-- Characters matched by the placeholder-name class `[a-zA-Z0-9_\-]`
in `fill_template_strict` (ASCII alphanumerics, underscore, hyphen). -/
def nameChar (c : Char) : Bool :=
  (c.isAlpha || c.isDigit) || c = '_' || c = '-'

/-- Python `str.strip()`: drop whitespace from both ends. -/
def pyStrip (s : Cs) : Cs :=
  ((s.dropWhile wsChar).reverse.dropWhile wsChar).reverse

/-- The static safe-fallback illustration prompt `SAFE_FALLBACK` (app.py lines 101-106). -/
def SAFE_FALLBACK : Cs :=
  ("A joyful, abstract geometric illustration symbolizing unity and learning — " ++
   "soft shapes, harmonious gradients, friendly silhouettes, " ++
   "no text, no logos, no brands, no real persons, family-friendly, " ++
   "flat vector style, bright colors.").toList

/-- The local guard text appended to the original prompt when the rewrite
call fails (app.py lines 130-132). -/
def guardSuffix : Cs :=
  ("\nFlat vector illustration, bright colors, no text, no logos, no brands, " ++
   "no real persons, family-friendly, inclusive, peaceful.").toList

/-- `sanitize_prompt` (app.py lines 108-132).  `chatResp` is the outcome of
the single `requests.post` to the chat completions endpoint: `some content`
models HTTP 200 with the reply text, `none` models a non-200 status or a
transport exception.  On success the stripped reply is returned verbatim;
otherwise the original prompt plus the fixed guard suffix. -/
def sanitize_prompt (chatResp : Option Cs) (originalPrompt : Cs) : Cs :=
  match chatResp with
  | some content => pyStrip content
  | none => originalPrompt ++ guardSuffix

/-- Number of chat-completions posts `sanitize_prompt` issues.  The source has
exactly one `requests.post` site (line 124), executed unconditionally on every
call — there is no moderation pre-check anywhere in the code, so no code path
skips the rewrite request. -/
def sanitize_prompt_posts (_chatResp : Option Cs) (_originalPrompt : Cs) : Nat := 1

-- ---------------------------------------------------------------------------
-- JSON values and a model of Python's json.loads
-- ---------------------------------------------------------------------------

/-- Parsed JSON values, as produced by Python's `json.loads`.  Numbers are
modelled as integers only: the model replies parsed in this program carry
strings, so fractional/exponent syntax is out of the modelled fragment
(inputs using it simply fail to parse here). -/
inductive Json where
  | null
  | bool (b : Bool)
  | num (n : Int)
  | str (s : Cs)
  | arr (elems : List Json)
  | obj (fields : List (Cs × Json))
deriving Repr

/-- JSON inter-token whitespace accepted by `json.loads` (space, tab,
newline, carriage return). -/
def jsonWs (c : Char) : Bool :=
  c = ' ' || c = '\t' || c = '\n' || c = '\r'

/-- Skip JSON whitespace. -/
def jskip (s : Cs) : Cs := s.dropWhile jsonWs

/-- JSON string escape characters (`\uXXXX` is outside the modelled
fragment and fails to parse). -/
def escChar (e : Char) : Option Char :=
  if e = '"' then some '"'
  else if e = '\\' then some '\\'
  else if e = '/' then some '/'
  else if e = 'n' then some '\n'
  else if e = 't' then some '\t'
  else if e = 'r' then some '\r'
  else if e = 'b' then some '\x08'
  else if e = 'f' then some '\x0c'
  else none

/-- Parse the body of a JSON string after the opening quote; returns the
decoded characters and the remainder after the closing quote. -/
def parseStringBody : Cs → Option (Cs × Cs)
  | [] => none
  | '"' :: rest => some ([], rest)
  | '\\' :: e :: rest =>
    match escChar e with
    | some c => (parseStringBody rest).map (fun p => (c :: p.1, p.2))
    | none => none
  | c :: rest => (parseStringBody rest).map (fun p => (c :: p.1, p.2))

/-- Parse a nonempty run of decimal digits into a natural number. -/
def parseDigits (s : Cs) : Option (Nat × Cs) :=
  let ds := s.takeWhile Char.isDigit
  if ds = [] then none
  else some (ds.foldl (fun acc c => acc * 10 + (c.toNat - '0'.toNat)) 0, s.dropWhile Char.isDigit)

mutual

/-- Parse one JSON value (fuel-bounded recursion; the fuel passed by
`parseJson` always suffices for the inputs of interest). -/
def parseVal : Nat → Cs → Option (Json × Cs)
  | 0, _ => none
  | fuel+1, s =>
    match s with
    | 'n' :: 'u' :: 'l' :: 'l' :: r => some (.null, r)
    | 't' :: 'r' :: 'u' :: 'e' :: r => some (.bool true, r)
    | 'f' :: 'a' :: 'l' :: 's' :: 'e' :: r => some (.bool false, r)
    | '"' :: r => (parseStringBody r).map (fun p => (.str p.1, p.2))
    | '[' :: r =>
      match jskip r with
      | ']' :: r2 => some (.arr [], r2)
      | r1 => (parseArrItems fuel r1).map (fun p => (.arr p.1, p.2))
    | '{' :: r =>
      match jskip r with
      | '}' :: r2 => some (.obj [], r2)
      | r1 => (parseObjItems fuel r1).map (fun p => (.obj p.1, p.2))
    | '-' :: r => (parseDigits r).map (fun p => (.num (-(p.1 : Int)), p.2))
    | c :: r =>
      if c.isDigit then (parseDigits (c :: r)).map (fun p => (.num (p.1 : Int), p.2))
      else none
    | [] => none

/-- Parse the comma-separated items of a JSON array (after `[`, first item
position, input already whitespace-skipped and known not to be `]`). -/
def parseArrItems : Nat → Cs → Option (List Json × Cs)
  | 0, _ => none
  | fuel+1, s =>
    match parseVal fuel s with
    | none => none
    | some (v, r) =>
      match jskip r with
      | ',' :: r2 =>
        match parseArrItems fuel (jskip r2) with
        | some (vs, rest) => some (v :: vs, rest)
        | none => none
      | ']' :: r2 => some ([v], r2)
      | _ => none

/-- Parse the comma-separated `"key": value` members of a JSON object
(after `{`, first member position, whitespace-skipped, known not `}`). -/
def parseObjItems : Nat → Cs → Option (List (Cs × Json) × Cs)
  | 0, _ => none
  | fuel+1, s =>
    match s with
    | '"' :: r =>
      match parseStringBody r with
      | none => none
      | some (k, r1) =>
        match jskip r1 with
        | ':' :: r2 =>
          match parseVal fuel (jskip r2) with
          | none => none
          | some (v, r3) =>
            match jskip r3 with
            | ',' :: r4 =>
              match parseObjItems fuel (jskip r4) with
              | some (kvs, rest) => some ((k, v) :: kvs, rest)
              | none => none
            | '}' :: r4 => some ([(k, v)], r4)
            | _ => none
        | _ => none
    | _ => none

end

/-- `json.loads`: parse a complete JSON document; trailing non-whitespace
input is an error. -/
def parseJson (s : Cs) : Option Json :=
  match parseVal (2 * s.length + 2) (jskip s) with
  | some (v, rest) => if jskip rest = [] then some v else none
  | none => none

-- ---------------------------------------------------------------------------
-- robust_parse_model_json (app.py lines 134-146)
-- ---------------------------------------------------------------------------

/-- The fallback extraction `re.search(r"\{[\s\S]*\}", raw)` (app.py line
140).  The regex is greedy: when a match exists it spans from the first `{`
to the last `}` of the text.  Returns that slice, or `none` when no `}`
follows the first `{`. -/
def extract_braces (s : Cs) : Option Cs :=
  let t := s.dropWhile (fun c => !(c = '{'))
  match t with
  | [] => none
  | _ :: _ =>
    let u := t.reverse.dropWhile (fun c => !(c = '}'))
    match u with
    | [] => none
    | _ :: _ => some u.reverse

/-- `robust_parse_model_json` (app.py lines 134-146): direct `json.loads`,
else parse the greedy `\{[\s\S]*\}` regex match; return the dict or `None`
(a successfully parsed non-dict value also yields `None`). -/
def robust_parse_model_json (raw : Cs) : Option (List (Cs × Json)) :=
  match parseJson raw with
  | some (.obj d) => some d
  | some _ => none
  | none =>
    match extract_braces raw with
    | none => none
    | some sub =>
      match parseJson sub with
      | some (.obj d) => some d
      | _ => none

/-- Scan for the close of the first balanced `{...}` group, counting depth. -/
def balancedSlice : Cs → Nat → Cs → Option Cs
  | [], _, _ => none
  | c :: rest, depth, acc =>
    if c = '{' then balancedSlice rest (depth + 1) (c :: acc)
    else if c = '}' then
      if depth = 1 then some (c :: acc).reverse
      else balancedSlice rest (depth - 1) (c :: acc)
    else balancedSlice rest depth (c :: acc)

/-- The first balanced `{...}` substring of a text (braces counted naively). -/
def firstBalanced (s : Cs) : Option Cs :=
  balancedSlice (s.dropWhile (fun c => !(c = '{'))) 0 []

/-- Modelled from the spec: the extraction fallback as the spec words it —
"extract the first balanced `{...}` substring and parse that".  Used only to
compare the spec's description against the code's greedy-regex fallback. -/
def robust_parse_spec (raw : Cs) : Option (List (Cs × Json)) :=
  match parseJson raw with
  | some (.obj d) => some d
  | some _ => none
  | none =>
    match firstBalanced raw with
    | none => none
    | some sub =>
      match parseJson sub with
      | some (.obj d) => some d
      | _ => none

-- ---------------------------------------------------------------------------
-- generate_seo_metadata (app.py lines 313-351)
-- ---------------------------------------------------------------------------

/-- Default SEO description returned on any failure (app.py lines 345-351). -/
def seoDefaultDesc : Cs := "Explore this insightful story.".toList

/-- Default SEO keywords returned on any failure (app.py lines 345-351). -/
def seoDefaultKeys : Cs := "web story, inspiration".toList

/-- Python `dict.get` on a parsed JSON object (first matching key). -/
def jGet (d : List (Cs × Json)) (k : Cs) : Option Json :=
  match d with
  | [] => none
  | (k0, v0) :: rest => if k0 = k then some v0 else jGet rest k

/-- `generate_seo_metadata` (app.py lines 313-351).  `resp` is the outcome of
the single chat post: `some content` models HTTP 200 with the reply text,
`none` models a non-200 status or a transport exception (both return the
fixed defaults in the source).  On success the reply is parsed with
`robust_parse_model_json` (`or {}` turns a failed parse into an empty dict)
and each field is `dict.get` with its default.  The request body built from
the record does not influence the returned value given the oracle reply, so
the embedding takes only the reply. -/
def generate_seo_metadata (resp : Option Cs) : Json × Json :=
  match resp with
  | none => (.str seoDefaultDesc, .str seoDefaultKeys)
  | some content =>
    let data := (robust_parse_model_json content).getD []
    ((jGet data "metadescription".toList).getD (.str seoDefaultDesc),
     (jGet data "metakeywords".toList).getD (.str seoDefaultKeys))

-- ---------------------------------------------------------------------------
-- Python value helpers and dict (StoryRecord) operations
-- ---------------------------------------------------------------------------

/-- Python truthiness of a JSON value (used by the source's `x or ""` and
`x or "story"` idioms). -/
def pyTruthy : Json → Bool
  | .null => false
  | .bool b => b
  | .num n => decide (n ≠ 0)
  | .str s => !s.isEmpty
  | .arr xs => !xs.isEmpty
  | .obj kvs => !kvs.isEmpty

/-- Python `str()` of a JSON value.  Strings, integers, booleans and `None`
are rendered exactly as Python does; the `repr`-style rendering of nested
lists/dicts is abbreviated since no claim depends on it (the record fields
this program stringifies are strings and the generated URL strings). -/
def pyStr : Json → Cs
  | .str s => s
  | .num n => (toString n).toList
  | .bool true => "True".toList
  | .bool false => "False".toList
  | .null => "None".toList
  | .arr _ => "[…]".toList
  | .obj _ => "\x7b…\x7d".toList

/-- The StoryRecord: a Python dict from field names to JSON values,
modelled as an association list in insertion order. -/
abbrev StoryRec := List (Cs × Json)

/-- Python dict assignment `r[k] = v`: overwrite in place when the key
exists (keeping its position), else append. -/
def setKey : StoryRec → Cs → Json → StoryRec
  | [], k, v => [(k, v)]
  | (k0, v0) :: rest, k, v =>
    if k0 = k then (k0, v) :: rest else (k0, v0) :: setKey rest k v

/-- The field names of a record. -/
def recKeys (r : StoryRec) : List Cs := r.map Prod.fst

/-- The dict comprehension `{k: result_json[k] for k in result_json}`
(app.py line 244): a fresh dict with the same entries. -/
def copyRec (r : StoryRec) : StoryRec := r.map (fun kv => (kv.1, kv.2))

-- ---------------------------------------------------------------------------
-- build_resized_cdn_url (app.py lines 85-99)
-- ---------------------------------------------------------------------------

/-- The URL-safe base64 alphabet used by `base64.urlsafe_b64encode`. -/
def b64Alphabet : Cs :=
  "ABCDEFGHIJKLMNOPQRSTUVWXYZabcdefghijklmnopqrstuvwxyz0123456789-_".toList

/-- The base64 character for a 6-bit group. -/
def b64Char (n : Nat) : Char := b64Alphabet.getD n 'A'

/-- `base64.urlsafe_b64encode` over a byte list, with `=` padding. -/
def b64Encode : List Nat → Cs
  | b0 :: b1 :: b2 :: rest =>
    b64Char (b0 / 4) :: b64Char (b0 % 4 * 16 + b1 / 16) ::
      b64Char (b1 % 16 * 4 + b2 / 64) :: b64Char (b2 % 64) :: b64Encode rest
  | [b0, b1] => [b64Char (b0 / 4), b64Char (b0 % 4 * 16 + b1 / 16), b64Char (b1 % 16 * 4), '=']
  | [b0] => [b64Char (b0 / 4), b64Char (b0 % 4 * 16), '=', '=']
  | [] => []

/-- Lower-case hexadecimal digit. -/
def hexDigit (n : Nat) : Char := "0123456789abcdef".toList.getD n '0'

/-- `\uXXXX` escape used by `json.dumps` (`ensure_ascii=True`) for
characters in the Basic Multilingual Plane. -/
def uEscape (n : Nat) : Cs :=
  ['\\', 'u', hexDigit (n / 4096 % 16), hexDigit (n / 256 % 16),
   hexDigit (n / 16 % 16), hexDigit (n % 16)]

/-- How `json.dumps` renders one character inside a string literal. -/
def jsonEscapeChar (c : Char) : Cs :=
  if c = '"' then ['\\', '"']
  else if c = '\\' then ['\\', '\\']
  else if c = '\n' then ['\\', 'n']
  else if c = '\t' then ['\\', 't']
  else if c = '\r' then ['\\', 'r']
  else if c = '\x08' then ['\\', 'b']
  else if c = '\x0c' then ['\\', 'f']
  else if c.toNat < 32 || c.toNat > 126 then uEscape c.toNat
  else [c]

/-- `json.dumps` rendering of a string's characters. -/
def jsonEscapeStr (s : Cs) : Cs := s.foldr (fun c acc => jsonEscapeChar c ++ acc) []

/-- Decimal rendering of a natural number. -/
def natStr (n : Nat) : Cs := (toString n).toList

/-- `json.dumps(template)` for the Serverless-Image-Handler resize template
built in `build_resized_cdn_url` (app.py lines 87-98), with the default
`, `/`: ` separators and insertion-ordered keys. -/
def cdnTemplateJson (bucket key : Cs) (width height : Nat) : Cs :=
  "\x7b\"bucket\": \"".toList ++ jsonEscapeStr bucket ++
    "\", \"key\": \"".toList ++ jsonEscapeStr key ++
    "\", \"edits\": \x7b\"resize\": \x7b\"width\": ".toList ++ natStr width ++
    ", \"height\": ".toList ++ natStr height ++
    ", \"fit\": \"cover\"\x7d\x7d\x7d".toList

/-- `build_resized_cdn_url` (app.py lines 85-99): the CDN prefix followed by
the URL-safe base64 encoding of the JSON resize template. -/
def build_resized_cdn_url (cdn bucket key : Cs) (width height : Nat) : Cs :=
  cdn ++ b64Encode ((cdnTemplateJson bucket key width height).map Char.toNat)

-- ---------------------------------------------------------------------------
-- generate_and_upload_images (app.py lines 224-311)
-- ---------------------------------------------------------------------------

/-- `S3_PREFIX.rstrip("/")`. -/
def rstripSlash (s : Cs) : Cs := (s.reverse.dropWhile (fun c => c = '/')).reverse

/-- The slug derived from the record title (app.py lines 237-243):
`(storytitle or "story").lower().replace(" ", "-").replace(":", "").replace(".", "")`.
The per-character replacements commute, so they are applied as one map and
one filter.  `Char.toLower` matches Python `str.lower` on ASCII; non-ASCII
titles keep their characters either way, only the case mapping differs. -/
def slugOf (rec : StoryRec) : Cs :=
  let t := (jGet rec "storytitle".toList).getD Json.null
  let t2 := if pyTruthy t then pyStr t else "story".toList
  ((t2.map Char.toLower).map (fun c => if c = ' ' then '-' else c)).filter
    (fun c => !(c = ':') && !(c = '.'))

/-- The S3 key `f"{S3_PREFIX.rstrip('/')}/{slug}/slide{i}.jpg"` (line 283). -/
def slideKey (s3Pre slug : Cs) (i : Nat) : Cs :=
  rstripSlash s3Pre ++ '/' :: slug ++ "/slide".toList ++ natStr i ++ ".jpg".toList

/-- The record field name `s{i}alt1`. -/
def sAlt (i : Nat) : Cs := 's' :: (natStr i ++ "alt1".toList)

/-- The record field name `s{i}image1`. -/
def sImg (i : Nat) : Cs := 's' :: (natStr i ++ "image1".toList)

/-- The record field name `potraitcoverurl` (sic, as in the source). -/
def coverField : Cs := "potraitcoverurl".toList

/-- One DALL·E response, as classified by the retry loop (app.py 259-277):
HTTP 200 with the parsed image URL (`ok (some url)`) or an unparseable body
(`ok none`), a 400/403 content-policy rejection, a 429 rate limit, or any
other error status. -/
inductive DalleResp where
  | ok (parsedUrl : Option Cs)
  | policy
  | rate
  | err

/-- The `for attempt in range(3)` retry loop (app.py lines 259-277),
returning the image URL (if any) and the number of DALL·E posts issued.
`n` is the number of attempts remaining; the oracle receives the attempt
index and the current payload prompt.  A 200 stops the loop whether or not
the body parsed; 400/403 swaps the payload to `SAFE_FALLBACK` and retries;
429 sleeps and retries with the same payload; other statuses stop. -/
def imageLoopAux (dalle : Nat → Cs → DalleResp) : Nat → Nat → Cs → Option Cs × Nat
  | 0, calls, _ => (none, calls)
  | n + 1, calls, payload =>
    match dalle (3 - (n + 1)) payload with
    | .ok u => (u, calls + 1)
    | .policy => imageLoopAux dalle n (calls + 1) SAFE_FALLBACK
    | .rate => imageLoopAux dalle n (calls + 1) payload
    | .err => (none, calls + 1)

/-- The per-slide attempt loop entered with 3 attempts and the sanitized
prompt as initial payload. -/
def imageAttempts (dalle : Nat → Cs → DalleResp) (p : Cs) : Option Cs × Nat :=
  imageLoopAux dalle 3 0 p

/-- The configuration and external-capability oracles read by
`generate_and_upload_images`.  `cfgOk` is
`all([DALE_ENDPOINT, DAALE_KEY, AWS_ACCESS_KEY, AWS_SECRET_KEY, AWS_BUCKET])`;
`chat i` is the sanitizer's rewrite-call outcome for slide `i`; `dalle i a p`
classifies the DALL·E response for slide `i`, attempt `a`, payload `p`;
`fetchUpload i url` tells whether the image fetch plus S3 upload for slide
`i` succeeded (an exception anywhere in that `try` block is `false`). -/
structure GenEnv where
  cfgOk : Bool
  bucket : Cs
  s3Pre : Cs
  cdnMedia : Cs
  defaultErrorImage : Cs
  chat : Nat → Option Cs
  dalle : Nat → Nat → Cs → DalleResp
  fetchUpload : Nat → Cs → Bool

/-- The local state of `generate_and_upload_images`: the parameter
`result_json` (`rj`), the output dict `out`, `first_slide_key`, and the
running count of DALL·E posts. -/
structure GenState where
  rj : StoryRec
  out : StoryRec
  firstSlideKey : Option Cs
  calls : Nat

/-- The body of one slide iteration (app.py lines 250-295): read the raw
prompt from `result_json`, sanitize it, run the attempt loop, then either
upload and build the 720x1200 CDN URL or fall back to the placeholder.
Returns the `s{i}image1` value, the uploaded key (when the upload
succeeded) and the number of DALL·E posts. -/
def slideOutVal (env : GenEnv) (slug : Cs) (rj : StoryRec) (i : Nat) : Cs × Option Cs × Nat :=
  let raw0 := (jGet rj (sAlt i)).getD (Json.str [])
  let rawPrompt := if pyTruthy raw0 then pyStr raw0 else []
  let safeP := sanitize_prompt (env.chat i) rawPrompt
  let res := imageAttempts (env.dalle i) safeP
  match res.1 with
  | some url =>
    if env.fetchUpload i url then
      (build_resized_cdn_url env.cdnMedia env.bucket (slideKey env.s3Pre slug i) 720 1200,
       some (slideKey env.s3Pre slug i), res.2)
    else (env.defaultErrorImage, none, res.2)
  | none => (env.defaultErrorImage, none, res.2)

/-- One iteration of the slide loop as a state transformer: every write
targets `out`; `first_slide_key` is assigned only at slide 1 on upload
success; `rj` is only read. -/
def genStep (env : GenEnv) (slug : Cs) (st : GenState) (i : Nat) : GenState :=
  let r := slideOutVal env slug st.rj i
  ⟨st.rj,
   setKey st.out (sImg i) (Json.str r.1),
   if i = 1 then (match r.2.1 with | some k => some k | none => st.firstSlideKey)
   else st.firstSlideKey,
   st.calls + r.2.2⟩

/-- The portrait-cover value (app.py lines 301-309): a 640x853 CDN URL from
slide 1's stored key when one exists, else the placeholder.  No synthesis
call occurs here — `build_resized_cdn_url` is pure string building. -/
def coverVal (env : GenEnv) (fk : Option Cs) : Cs :=
  match fk with
  | some k => build_resized_cdn_url env.cdnMedia env.bucket k 640 853
  | none => env.defaultErrorImage

/-- `generate_and_upload_images` (app.py lines 224-311) as a state function.
With missing secrets it returns the copy `{**result_json}` untouched;
otherwise it folds the six slide iterations over the fresh copy `out` and
finally assigns the cover field. -/
def genRun (env : GenEnv) (rec : StoryRec) : GenState :=
  if env.cfgOk then
    let slug := slugOf rec
    let st := List.foldl (genStep env slug) ⟨rec, copyRec rec, none, 0⟩ [1, 2, 3, 4, 5, 6]
    ⟨st.rj, setKey st.out coverField (Json.str (coverVal env st.firstSlideKey)),
     st.firstSlideKey, st.calls⟩
  else ⟨rec, copyRec rec, none, 0⟩

/-- The dict returned by `generate_and_upload_images`. -/
def generate_and_upload_images (env : GenEnv) (rec : StoryRec) : StoryRec :=
  (genRun env rec).out

/-- Tab 1's assembly after the image pipeline (app.py lines 497-505): run
the pipeline, then assign `metadescription` and `metakeywords` from
`generate_seo_metadata`. -/
def tab1Assemble (env : GenEnv) (seoResp : Option Cs) (rec : StoryRec) : StoryRec :=
  let fj := generate_and_upload_images env rec
  let md := generate_seo_metadata seoResp
  setKey (setKey fj "metadescription".toList md.1) "metakeywords".toList md.2

-- ---------------------------------------------------------------------------
-- Theorems for claims C1 and C3 (Prompt Sanitizer)
-- ---------------------------------------------------------------------------

/-- Claim C1 (counterexample): with the Moderation capability unconfigured
(which is the only state this code has — no moderation endpoint exists at all),
the sanitizer does not return the prompt unchanged and does issue a rewrite
Completion call: on a failed rewrite for prompt "cat" the output is the prompt
plus the guard suffix, and exactly one rewrite post was issued (not zero). -/
theorem C1_cx :
    sanitize_prompt none "cat".toList ≠ "cat".toList ∧
    sanitize_prompt_posts none "cat".toList ≠ 0 := by
  constructor
  · intro h
    have := congrArg List.length h
    simp [sanitize_prompt, guardSuffix] at this
  · intro h
    simp [sanitize_prompt_posts] at h

/-- Claim C1 (amended): the code contains no Moderation capability, and the
sanitizer unconditionally issues exactly one rewrite Completion call for every
prompt; on a failed rewrite it returns the original prompt with the fixed
non-empty guard suffix appended — never the unchanged original — and on a
successful rewrite it returns the model's stripped reply. -/
theorem C1_amended (chatResp : Option Cs) (p : Cs) :
    sanitize_prompt_posts chatResp p = 1 ∧
    sanitize_prompt none p = p ++ guardSuffix ∧
    sanitize_prompt none p ≠ p ∧
    (∀ c, sanitize_prompt (some c) p = pyStrip c) := by
  refine ⟨rfl, rfl, ?_, fun c => rfl⟩
  intro h
  have := congrArg List.length h
  simp [sanitize_prompt, guardSuffix] at this

/-- Claim C3 (counterexample): the sanitizer can return empty text.  When the
rewrite call succeeds but the model's reply is a single space, the stripped
result is the empty string, refuting "always returns some non-empty text". -/
theorem C3_cx : sanitize_prompt (some " ".toList) "cat".toList = [] := by
  decide

/-- Claim C3 (amended): the fallback path (failed rewrite call) always returns
non-empty text, and the success path returns non-empty text provided the
model's reply does not strip to the empty string; no code path detects risk,
so no path can return the original because risk went undetected. -/
theorem C3_amended (p c : Cs) :
    sanitize_prompt none p ≠ [] ∧
    (pyStrip c ≠ [] → sanitize_prompt (some c) p ≠ []) := by
  constructor
  · intro h
    have := congrArg List.length h
    simp [sanitize_prompt, guardSuffix] at this
  · intro h
    simpa [sanitize_prompt] using h

/-- Witness for `C3_amended`: instantiated at prompt "x" and reply "ok",
whose strip is non-empty. -/
theorem C3_amended_witness :
    pyStrip "ok".toList ≠ [] ∧ sanitize_prompt (some "ok".toList) "x".toList ≠ [] :=
  ⟨by decide, (C3_amended "x".toList "ok".toList).2 (by decide)⟩

-- ---------------------------------------------------------------------------
-- Theorems for claims C7 and C8 (metadata defaults; parse fallback)
-- ---------------------------------------------------------------------------

/-- Claim C7 (counterexample): the metadata generator can return empty
fields.  When the chat reply is exactly
`{"metadescription":"","metakeywords":""}`, both parse and key lookup
succeed, and both returned fields are the empty string — refuting "always
returns a populated, non-empty pair". -/
theorem C7_cx :
    generate_seo_metadata
        (some "\x7b\"metadescription\":\"\",\"metakeywords\":\"\"\x7d".toList)
      = (Json.str [], Json.str []) := rfl

/-- Claim C7 (amended): on a transport failure or non-200 status the fixed
default pair is returned; when the reply fails to parse as a JSON object the
fixed default pair is returned; when the reply parses, each field is the
parsed object's value when its key is present (possibly empty) and the
per-key default otherwise. -/
theorem C7_amended :
    generate_seo_metadata none = (Json.str seoDefaultDesc, Json.str seoDefaultKeys) ∧
    (∀ c, robust_parse_model_json c = none →
      generate_seo_metadata (some c) = (Json.str seoDefaultDesc, Json.str seoDefaultKeys)) ∧
    (∀ c d, robust_parse_model_json c = some d →
      generate_seo_metadata (some c) =
        ((jGet d "metadescription".toList).getD (Json.str seoDefaultDesc),
         (jGet d "metakeywords".toList).getD (Json.str seoDefaultKeys))) := by
  refine ⟨rfl, ?_, ?_⟩
  · intro c h
    simp [generate_seo_metadata, h, jGet]
  · intro c d h
    simp [generate_seo_metadata, h]

/-- Witness for `C7_amended`: a reply that is not JSON at all yields the
fixed defaults. -/
theorem C7_amended_witness :
    robust_parse_model_json "oops".toList = none ∧
    generate_seo_metadata (some "oops".toList)
      = (Json.str seoDefaultDesc, Json.str seoDefaultKeys) :=
  ⟨rfl, C7_amended.2.1 "oops".toList rfl⟩

/-- All characters of `prose` differ from both braces. -/
def braceless (prose : Cs) : Prop := ∀ c ∈ prose, c ≠ '{' ∧ c ≠ '}'

/-- Dropping while a predicate holds of every element of the first part
skips past the whole first part. -/
theorem dropWhile_append_all {p : Char → Bool} (a b : Cs) (h : ∀ c ∈ a, p c = true) :
    (a ++ b).dropWhile p = b.dropWhile p := by
  induction a with
  | nil => rfl
  | cons c rest ih =>
    simp only [List.cons_append, List.dropWhile_cons, h c (by simp)]
    exact ih (fun x hx => h x (by simp [hx]))

/-- Claim C8 (counterexample): the fallback is a greedy first-`{`-to-last-`}`
slice, not "the first balanced `{...}` substring".  On the reply
`Here {"a":1} }` the claimed algorithm (modelled by `robust_parse_spec`)
extracts `{"a":1}` and succeeds, while the code's fallback extracts
`{"a":1} }` — which is not valid JSON — and returns `None`. -/
theorem C8_cx :
    robust_parse_model_json "Here \x7b\"a\":1\x7d \x7d".toList = none ∧
    robust_parse_spec "Here \x7b\"a\":1\x7d \x7d".toList
      = some [("a".toList, Json.num 1)] :=
  ⟨rfl, rfl⟩

/-- Claim C8 (amended): when direct parsing fails the fallback extracts the
substring from the first `{` through the last `}` (the greedy regex match)
and parses that; in particular, for a reply made of brace-free prose
followed by a valid JSON object whose final `}` is the last `}` of the
reply, parsing succeeds and yields the embedded object. -/
theorem C8_amended (prose mid : Cs) (d : List (Cs × Json))
    (hpr : braceless prose)
    (hfail : parseJson (prose ++ ('{' :: (mid ++ ['}']))) = none)
    (hj : parseJson ('{' :: (mid ++ ['}'])) = some (Json.obj d)) :
    robust_parse_model_json (prose ++ ('{' :: (mid ++ ['}']))) = some d := by
  have hdrop : (prose ++ ('{' :: (mid ++ ['}']))).dropWhile (fun c => !(c = '{'))
      = '{' :: (mid ++ ['}']) := by
    rw [dropWhile_append_all _ _ (fun c hc => by simp [(hpr c hc).1])]
    simp [List.dropWhile_cons]
  have hrev : ('{' :: (mid ++ ['}'])).reverse.dropWhile (fun c => !(c = '}'))
      = ('{' :: (mid ++ ['}'])).reverse := by
    simp [List.reverse_cons, List.reverse_append, List.dropWhile_cons]
  have hex : extract_braces (prose ++ ('{' :: (mid ++ ['}']))) = some ('{' :: (mid ++ ['}'])) := by
    unfold extract_braces
    simp only [hdrop, hrev]
    simp
  unfold robust_parse_model_json
  simp only [hfail, hex, hj]

/-- Witness for `C8_amended`: the spec's own scenario — prose-wrapped JSON
`Here is the JSON: {"storytitle":"X"}` still parses to the embedded object. -/
theorem C8_amended_witness :
    parseJson ("Here is the JSON: ".toList ++ ('{' :: ("\"storytitle\":\"X\"".toList ++ ['}']))) = none ∧
    robust_parse_model_json
        ("Here is the JSON: ".toList ++ ('{' :: ("\"storytitle\":\"X\"".toList ++ ['}'])))
      = some [("storytitle".toList, Json.str "X".toList)] :=
  ⟨rfl, C8_amended "Here is the JSON: ".toList "\"storytitle\":\"X\"".toList
      [("storytitle".toList, Json.str "X".toList)] (by unfold braceless; decide) rfl rfl⟩

-- ---------------------------------------------------------------------------
-- fill_template_strict (app.py lines 703-709) and the missing-field report
-- (app.py lines 739-744)
-- ---------------------------------------------------------------------------

/-- Python `str.replace(pat, repl)`: replace the leftmost, non-overlapping
occurrences, continuing the scan after each inserted replacement.  `fuel`
bounds the recursion by the scanned string's length (supplied exactly by
`pyReplace`); the replace loop in the source is only ever called with the
nonempty pattern `{{key}}`, so the empty-pattern behaviour is irrelevant
(modelled as the identity). -/
def pyReplaceF : Nat → Cs → Cs → Cs → Cs
  | 0, s, _, _ => s
  | _ + 1, s, [], _ => s
  | fuel + 1, s, p :: ps, repl =>
    match s with
    | [] => []
    | c :: rest =>
      if (p :: ps).isPrefixOf (c :: rest) then
        repl ++ pyReplaceF fuel ((c :: rest).drop (p :: ps).length) (p :: ps) repl
      else c :: pyReplaceF fuel rest (p :: ps) repl

/-- Python `s.replace(pat, repl)`. -/
def pyReplace (s pat repl : Cs) : Cs := pyReplaceF s.length s pat repl

/-- The literal text of the placeholder token `{{n}}`
(the f-string `f"{{{{{k}}}}}"` of app.py line 708). -/
def tokText (n : Cs) : Cs := '{' :: '{' :: (n ++ ['}', '}'])

/-- Match the regex `\{\{\s*([a-zA-Z0-9_\-]+)\s*\}\}` inside the braces:
skip whitespace, read a nonempty run of name characters, skip whitespace,
require `}}`.  The three character classes are pairwise disjoint, so this
deterministic scan equals the regex match at this position. -/
def tryMatchBody (rest : Cs) : Option (Cs × Cs) :=
  let r1 := rest.dropWhile wsChar
  let name := r1.takeWhile nameChar
  let r2 := (r1.dropWhile nameChar).dropWhile wsChar
  if name = [] then none
  else
    match r2 with
    | '}' :: '}' :: r3 => some (name, r3)
    | _ => none

/-- Try to match the placeholder regex at the start of `s`, returning the
captured name and the remainder after the match. -/
def tryMatch : Cs → Option (Cs × Cs)
  | c1 :: c2 :: rest =>
    if c1 = '{' then (if c2 = '{' then tryMatchBody rest else none) else none
  | _ => none

/-- `re.findall(r"\{\{\s*([a-zA-Z0-9_\-]+)\s*\}\}", template)`: scan left to
right, collecting non-overlapping matches and resuming after each match.
`fuel` bounds the scan by the string length (supplied by
`findPlaceholders`). -/
def findPHF : Nat → Cs → List Cs
  | 0, _ => []
  | fuel + 1, s =>
    match s with
    | [] => []
    | c :: rest =>
      match tryMatch (c :: rest) with
      | some p => p.1 :: findPHF fuel p.2
      | none => findPHF fuel rest

/-- All placeholder names found in a template, in scan order. -/
def findPlaceholders (s : Cs) : List Cs := findPHF s.length s

/-- `fill_template_strict` (app.py lines 703-709): collect the placeholder
names of the original template, then fold `template.replace(f"{{{{{k}}}}}",
str(v))` over the record's items in order.  Returns the filled text and the
found placeholder names (the source wraps them in a `set`, modelled here as
the raw occurrence list — the caller's report dedups and sorts). -/
def fill_template_strict (template : Cs) (data : StoryRec) : Cs × List Cs :=
  (data.foldl (fun t kv => pyReplace t (tokText kv.1) (pyStr kv.2)) template,
   findPlaceholders template)

/-- Python substring membership `needle in hay`. -/
def containsSub (needle : Cs) : Cs → Bool
  | [] => needle.isEmpty
  | c :: rest => needle.isPrefixOf (c :: rest) || containsSub needle rest

/-- Python string comparison (lexicographic by code point). -/
def lexLe : Cs → Cs → Bool
  | [], _ => true
  | _ :: _, [] => false
  | x :: xs, y :: ys => if x = y then lexLe xs ys else decide (x.toNat < y.toNat)

/-- Ordered insertion for `sorted`. -/
def insertStr (x : Cs) : List Cs → List Cs
  | [] => [x]
  | y :: ys => if lexLe x y then x :: y :: ys else y :: insertStr x ys

/-- Python `sorted` on a list of strings (insertion sort; `sorted` is
order-insensitive on its input set, so the algorithm choice is immaterial). -/
def sortStr : List Cs → List Cs
  | [] => []
  | x :: xs => insertStr x (sortStr xs)

/-- The caller's missing-field report (app.py line 742):
`sorted([p for p in placeholders if f"{{{{{p}}}}}" in html_text and p not in merged])`,
where `placeholders` is the deduplicated set of found names. -/
def missingFields (template : Cs) (data : StoryRec) : List Cs :=
  sortStr (((findPlaceholders template).dedup).filter
    (fun p => containsSub (tokText p) template && (jGet data p).isNone))

-- ---------------------------------------------------------------------------
-- Structured templates for the template-filling theorem
-- ---------------------------------------------------------------------------

/-- A template shape: literal text interleaved with `{{name}}` tokens. -/
inductive Tseg where
  | lit (s : Cs)
  | tok (n : Cs)

/-- Render a structured template to its text. -/
def renderT : List Tseg → Cs
  | [] => []
  | .lit s :: rest => s ++ renderT rest
  | .tok n :: rest => tokText n ++ renderT rest

/-- Render a structured template with each token whose name is a key of
`data` replaced by that value's textual form, and every other token left
verbatim. -/
def renderAfter (data : StoryRec) : List Tseg → Cs
  | [] => []
  | .lit s :: rest => s ++ renderAfter data rest
  | .tok n :: rest =>
    (match jGet data n with
     | some v => pyStr v
     | none => tokText n) ++ renderAfter data rest

/-- The token names of a structured template, in order. -/
def tokenNames : List Tseg → List Cs
  | [] => []
  | .lit _ :: rest => tokenNames rest
  | .tok n :: rest => n :: tokenNames rest

/-- Text containing neither brace. -/
def noBrace (s : Cs) : Bool := s.all (fun c => !(c = '{') && !(c = '}'))

/-- A wellformed placeholder name: nonempty, name characters only. -/
def wfName (s : Cs) : Bool := !s.isEmpty && s.all nameChar

/-- A wellformed structured template: literal segments are brace-free and
token names are wellformed. -/
def wfTpl (tpl : List Tseg) : Bool :=
  tpl.all (fun seg => match seg with | .lit s => noBrace s | .tok n => wfName n)

/-- A record suitable for plain substitution: wellformed keys and
brace-free stringified values. -/
def wfData (data : StoryRec) : Bool :=
  data.all (fun kv => wfName kv.1 && noBrace (pyStr kv.2))

-- ---------------------------------------------------------------------------
-- Record and retry-loop lemmas
-- ---------------------------------------------------------------------------

/-- Looking up the key just assigned yields the assigned value. -/
theorem jGet_setKey_self (r : StoryRec) (k : Cs) (v : Json) :
    jGet (setKey r k v) k = some v := by
  induction r with
  | nil => simp [setKey, jGet]
  | cons kv rest ih =>
    obtain ⟨k0, v0⟩ := kv
    by_cases h : k0 = k
    · simp [setKey, jGet, h]
    · simp [setKey, jGet, h, ih]

/-- Assigning one key leaves lookups of any other key unchanged. -/
theorem jGet_setKey_ne (r : StoryRec) (k k' : Cs) (v : Json) (h : k' ≠ k) :
    jGet (setKey r k v) k' = jGet r k' := by
  have hne : k ≠ k' := fun hh => h hh.symm
  induction r with
  | nil => simp [setKey, jGet, hne]
  | cons kv rest ih =>
    obtain ⟨k0, v0⟩ := kv
    by_cases h0 : k0 = k
    · subst h0
      simp [setKey, jGet, hne]
    · simp [setKey, jGet, h0, ih]

/-- Dict assignment never removes a key. -/
theorem recKeys_setKey_mem (r : StoryRec) (k k' : Cs) (v : Json) (h : k' ∈ recKeys r) :
    k' ∈ recKeys (setKey r k v) := by
  induction r with
  | nil => simp [recKeys] at h
  | cons kv rest ih =>
    obtain ⟨k0, v0⟩ := kv
    simp only [recKeys, List.map_cons, List.mem_cons] at h
    by_cases h0 : k0 = k
    · simp only [setKey, if_pos h0, recKeys, List.map_cons, List.mem_cons]
      exact h
    · simp only [setKey, if_neg h0, recKeys, List.map_cons, List.mem_cons]
      rcases h with h1 | h1
      · exact Or.inl h1
      · exact Or.inr (by simpa only [recKeys] using ih (by simpa only [recKeys] using h1))

/-- The fresh copy holds the same entries as the original dict. -/
theorem copyRec_eq (r : StoryRec) : copyRec r = r := by
  simp [copyRec]

/-- The attempt loop posts at most once per remaining attempt. -/
theorem imageLoopAux_le (dalle : Nat → Cs → DalleResp) (n calls : Nat) (p : Cs) :
    (imageLoopAux dalle n calls p).2 ≤ calls + n := by
  induction n generalizing calls p with
  | zero => simp [imageLoopAux]
  | succ m ih =>
    simp only [imageLoopAux]
    cases dalle (3 - (m + 1)) p with
    | ok u => dsimp only; omega
    | policy => exact le_trans (ih (calls + 1) SAFE_FALLBACK) (by omega)
    | rate => exact le_trans (ih (calls + 1) p) (by omega)
    | err => dsimp only; omega

/-- A slide's attempt loop issues at most 3 DALL·E posts. -/
theorem imageAttempts_le (dalle : Nat → Cs → DalleResp) (p : Cs) :
    (imageAttempts dalle p).2 ≤ 3 := by
  simpa [imageAttempts] using imageLoopAux_le dalle 3 0 p

/-- A slide's stored image value is either the placeholder or the 720x1200
CDN URL derived from that slide's storage key. -/
theorem slideOutVal_fst (env : GenEnv) (slug : Cs) (rj : StoryRec) (i : Nat) :
    (slideOutVal env slug rj i).1 = env.defaultErrorImage ∨
    (slideOutVal env slug rj i).1
      = build_resized_cdn_url env.cdnMedia env.bucket (slideKey env.s3Pre slug i) 720 1200 := by
  unfold slideOutVal
  cases h : (imageAttempts (env.dalle i)
      (sanitize_prompt (env.chat i)
        (if pyTruthy ((jGet rj (sAlt i)).getD (Json.str [])) then
          pyStr ((jGet rj (sAlt i)).getD (Json.str [])) else []))).1 with
  | none => simp [h]
  | some url =>
    by_cases hu : env.fetchUpload i url
    · simp [h, hu]
    · simp [h, hu]

/-- A slide's uploaded key, when one exists, is that slide's storage key. -/
theorem slideOutVal_key (env : GenEnv) (slug : Cs) (rj : StoryRec) (i : Nat) :
    (slideOutVal env slug rj i).2.1 = none ∨
    (slideOutVal env slug rj i).2.1 = some (slideKey env.s3Pre slug i) := by
  unfold slideOutVal
  cases h : (imageAttempts (env.dalle i)
      (sanitize_prompt (env.chat i)
        (if pyTruthy ((jGet rj (sAlt i)).getD (Json.str [])) then
          pyStr ((jGet rj (sAlt i)).getD (Json.str [])) else []))).1 with
  | none => simp [h]
  | some url =>
    by_cases hu : env.fetchUpload i url
    · simp [h, hu]
    · simp [h, hu]

/-- Each slide iteration issues at most 3 DALL·E posts. -/
theorem slideOutVal_calls_le (env : GenEnv) (slug : Cs) (rj : StoryRec) (i : Nat) :
    (slideOutVal env slug rj i).2.2 ≤ 3 := by
  unfold slideOutVal
  cases h : (imageAttempts (env.dalle i)
      (sanitize_prompt (env.chat i)
        (if pyTruthy ((jGet rj (sAlt i)).getD (Json.str [])) then
          pyStr ((jGet rj (sAlt i)).getD (Json.str [])) else []))).1 with
  | none =>
    simp only [h]
    exact imageAttempts_le _ _
  | some url =>
    by_cases hu : env.fetchUpload i url
    · simp only [h, hu, if_true]
      exact imageAttempts_le _ _
    · simp only [h, hu, if_false]
      exact imageAttempts_le _ _

-- ---------------------------------------------------------------------------
-- Theorems for claims C2, C4, C5, C9, C10 (Image Pipeline)
-- ---------------------------------------------------------------------------

/-- A concrete environment with every external capability failing, for
witness instantiations. -/
def trivEnv : GenEnv :=
  ⟨true, "bkt".toList, "media".toList, "https://cdn/".toList, "https://err.jpg".toList,
   fun _ => none, fun _ _ _ => DalleResp.err, fun _ _ => false⟩

/-- A concrete one-field record for witness instantiations. -/
def trivRec : StoryRec := [("storytitle".toList, Json.str "My Story".toList)]

/-- Claim C2: when the pipeline's configuration is present (so the slide loop
actually runs rather than erroring out on missing secrets), every slide field
`s{i}image1`, i = 1..6, is present in the output record and holds either the
configured placeholder or the 720x1200 CDN URL derived from that slide's
storage key — never absent, never null. -/
theorem C2_thm (env : GenEnv) (rec : StoryRec) (i : Nat)
    (hc : env.cfgOk = true) (h1 : 1 ≤ i) (h2 : i ≤ 6) :
    ∃ v, jGet (generate_and_upload_images env rec) (sImg i) = some (Json.str v) ∧
      (v = env.defaultErrorImage ∨
       v = build_resized_cdn_url env.cdnMedia env.bucket
             (slideKey env.s3Pre (slugOf rec) i) 720 1200) := by
  unfold generate_and_upload_images genRun
  simp only [hc, if_true, List.foldl, genStep, copyRec_eq]
  interval_cases i
  · exact ⟨_, by rw [jGet_setKey_ne _ _ _ _ (by decide), jGet_setKey_ne _ _ _ _ (by decide),
      jGet_setKey_ne _ _ _ _ (by decide), jGet_setKey_ne _ _ _ _ (by decide),
      jGet_setKey_ne _ _ _ _ (by decide), jGet_setKey_ne _ _ _ _ (by decide),
      jGet_setKey_self], slideOutVal_fst env (slugOf rec) rec 1⟩
  · exact ⟨_, by rw [jGet_setKey_ne _ _ _ _ (by decide), jGet_setKey_ne _ _ _ _ (by decide),
      jGet_setKey_ne _ _ _ _ (by decide), jGet_setKey_ne _ _ _ _ (by decide),
      jGet_setKey_ne _ _ _ _ (by decide), jGet_setKey_self], slideOutVal_fst env (slugOf rec) rec 2⟩
  · exact ⟨_, by rw [jGet_setKey_ne _ _ _ _ (by decide), jGet_setKey_ne _ _ _ _ (by decide),
      jGet_setKey_ne _ _ _ _ (by decide), jGet_setKey_ne _ _ _ _ (by decide),
      jGet_setKey_self], slideOutVal_fst env (slugOf rec) rec 3⟩
  · exact ⟨_, by rw [jGet_setKey_ne _ _ _ _ (by decide), jGet_setKey_ne _ _ _ _ (by decide),
      jGet_setKey_ne _ _ _ _ (by decide), jGet_setKey_self], slideOutVal_fst env (slugOf rec) rec 4⟩
  · exact ⟨_, by rw [jGet_setKey_ne _ _ _ _ (by decide), jGet_setKey_ne _ _ _ _ (by decide),
      jGet_setKey_self], slideOutVal_fst env (slugOf rec) rec 5⟩
  · exact ⟨_, by rw [jGet_setKey_ne _ _ _ _ (by decide), jGet_setKey_self],
      slideOutVal_fst env (slugOf rec) rec 6⟩

/-- Witness for `C2_thm`: slide 3 of the trivial environment and record. -/
theorem C2_thm_witness :
    trivEnv.cfgOk = true ∧ (1 : Nat) ≤ 3 ∧ (3 : Nat) ≤ 6 ∧
    ∃ v, jGet (generate_and_upload_images trivEnv trivRec) (sImg 3) = some (Json.str v) ∧
      (v = trivEnv.defaultErrorImage ∨
       v = build_resized_cdn_url trivEnv.cdnMedia trivEnv.bucket
             (slideKey trivEnv.s3Pre (slugOf trivRec) 3) 720 1200) :=
  ⟨rfl, by decide, by decide, C2_thm trivEnv trivRec 3 rfl (by decide) (by decide)⟩

/-- Claim C4: the per-slide image generation loop issues at most 3 DALL·E
requests, counting 429 rate-limit and 400/403 policy-rejection retries
against the same three-attempt budget (each consumes one attempt of the
same `range(3)` loop). -/
theorem C4_thm (dalle : Nat → Cs → DalleResp) (p : Cs) :
    (imageAttempts dalle p).2 ≤ 3 :=
  imageAttempts_le dalle p

/-- Claim C5: with configuration present, if slide 1 left no stored artifact
the portrait-cover field equals the configured placeholder; if slide 1 has a
stored artifact, the cover is the 640x853 CDN URL derived from that same
stored key (`slideKey ... 1`).  The total DALL·E post count is bounded by
the six slide loops alone (≤ 18): the cover derivation issues no synthesis
call. -/
theorem C5_thm (env : GenEnv) (rec : StoryRec) (hc : env.cfgOk = true) :
    ((genRun env rec).firstSlideKey = none →
      jGet (generate_and_upload_images env rec) coverField
        = some (Json.str env.defaultErrorImage)) ∧
    (∀ k, (genRun env rec).firstSlideKey = some k →
      k = slideKey env.s3Pre (slugOf rec) 1 ∧
      jGet (generate_and_upload_images env rec) coverField
        = some (Json.str (build_resized_cdn_url env.cdnMedia env.bucket k 640 853))) ∧
    (genRun env rec).calls ≤ 18 := by
  unfold generate_and_upload_images genRun
  simp only [hc, if_true, List.foldl, genStep, copyRec_eq]
  have h648 : ∀ a b c d e f : Nat, a ≤ 3 → b ≤ 3 → c ≤ 3 → d ≤ 3 → e ≤ 3 → f ≤ 3 →
      0 + a + b + c + d + e + f ≤ 18 := by omega
  cases hk : (slideOutVal env (slugOf rec) rec 1).2.1 with
  | none =>
    refine ⟨?_, ?_, ?_⟩
    · intro _
      simp only [hk]
      rw [jGet_setKey_self]
      simp [coverVal]
    · intro k hkk
      simp only [hk] at hkk
      simp at hkk
    · exact h648 _ _ _ _ _ _ (slideOutVal_calls_le _ _ _ _) (slideOutVal_calls_le _ _ _ _)
        (slideOutVal_calls_le _ _ _ _) (slideOutVal_calls_le _ _ _ _)
        (slideOutVal_calls_le _ _ _ _) (slideOutVal_calls_le _ _ _ _)
  | some k0 =>
    refine ⟨?_, ?_, ?_⟩
    · intro hno
      simp only [hk] at hno
      simp at hno
    · intro k hkk
      simp only [hk] at hkk
      have hk0 : k0 = k := by simpa using hkk
      subst hk0
      have : k0 = slideKey env.s3Pre (slugOf rec) 1 := by
        rcases slideOutVal_key env (slugOf rec) rec 1 with hh | hh
        · rw [hh] at hk; cases hk
        · rw [hh] at hk; exact (Option.some.inj hk).symm
      refine ⟨this, ?_⟩
      simp only [hk]
      rw [jGet_setKey_self]
      simp [coverVal]
    · exact h648 _ _ _ _ _ _ (slideOutVal_calls_le _ _ _ _) (slideOutVal_calls_le _ _ _ _)
        (slideOutVal_calls_le _ _ _ _) (slideOutVal_calls_le _ _ _ _)
        (slideOutVal_calls_le _ _ _ _) (slideOutVal_calls_le _ _ _ _)

/-- Witness for `C5_thm`: with every synthesis failing, slide 1 stores
nothing and the cover is the placeholder. -/
theorem C5_thm_witness :
    trivEnv.cfgOk = true ∧
    jGet (generate_and_upload_images trivEnv trivRec) coverField
      = some (Json.str trivEnv.defaultErrorImage) :=
  ⟨rfl, (C5_thm trivEnv trivRec rfl).1 (by decide)⟩

/-- Claim C9: running the Image Pipeline and then the Metadata Generator
yields a record whose key set contains every key of the input record — no
field is removed or renamed by the later stages. -/
theorem C9_thm (env : GenEnv) (seoResp : Option Cs) (rec : StoryRec) (k : Cs)
    (h : k ∈ recKeys rec) : k ∈ recKeys (tab1Assemble env seoResp rec) := by
  unfold tab1Assemble generate_and_upload_images genRun
  cases hc : env.cfgOk
  · simp only [hc, Bool.false_eq_true, if_false, copyRec_eq]
    exact recKeys_setKey_mem _ _ _ _ (recKeys_setKey_mem _ _ _ _ h)
  · simp only [hc, if_true, List.foldl, genStep, copyRec_eq]
    apply recKeys_setKey_mem
    apply recKeys_setKey_mem
    apply recKeys_setKey_mem
    apply recKeys_setKey_mem
    apply recKeys_setKey_mem
    apply recKeys_setKey_mem
    apply recKeys_setKey_mem
    apply recKeys_setKey_mem
    apply recKeys_setKey_mem
    exact h

/-- Witness for `C9_thm`: the title key survives the full assembly. -/
theorem C9_thm_witness :
    "storytitle".toList ∈ recKeys trivRec ∧
    "storytitle".toList ∈ recKeys (tab1Assemble trivEnv none trivRec) :=
  ⟨by decide, C9_thm trivEnv none trivRec "storytitle".toList (by decide)⟩

/-- Claim C10: the Image Pipeline never mutates its input record — every
assignment in the source targets the fresh copy `out`, so the caller's
`result_json` is unchanged after the call. -/
theorem C10_thm (env : GenEnv) (rec : StoryRec) : (genRun env rec).rj = rec := by
  cases hc : env.cfgOk
  · simp [genRun, hc]
  · simp [genRun, hc, List.foldl, genStep]

-- ---------------- scratch: pyReplace equations ----------------

theorem pyReplaceF_congr : ∀ (f1 f2 : Nat) (s pat repl : Cs),
    s.length ≤ f1 → s.length ≤ f2 → pyReplaceF f1 s pat repl = pyReplaceF f2 s pat repl := by
  intro f1
  induction f1 with
  | zero =>
    intro f2 s pat repl h1 _
    have hs : s = [] := List.eq_nil_of_length_eq_zero (Nat.le_zero.mp h1)
    subst hs
    cases f2 with
    | zero => rfl
    | succ m => cases pat <;> rfl
  | succ m1 ih =>
    intro f2 s pat repl h1 h2
    cases f2 with
    | zero =>
      have hs : s = [] := List.eq_nil_of_length_eq_zero (Nat.le_zero.mp h2)
      subst hs
      cases pat <;> rfl
    | succ m2 =>
      cases pat with
      | nil => rfl
      | cons p ps =>
        cases s with
        | nil => rfl
        | cons c rest =>
          simp only [pyReplaceF]
          by_cases hp : (p :: ps).isPrefixOf (c :: rest) = true
          · rw [if_pos hp, if_pos hp]
            have hlen : ((c :: rest).drop (p :: ps).length).length ≤ m1 := by
              simp only [List.length_drop, List.length_cons] at *
              omega
            have hlen2 : ((c :: rest).drop (p :: ps).length).length ≤ m2 := by
              simp only [List.length_drop, List.length_cons] at *
              omega
            rw [ih m2 _ _ _ hlen hlen2]
          · rw [if_neg hp, if_neg hp]
            have hlen : rest.length ≤ m1 := by simp at h1; omega
            have hlen2 : rest.length ≤ m2 := by simp at h2; omega
            rw [ih m2 _ _ _ hlen hlen2]

theorem pyReplaceF_eq (fuel : Nat) (s pat repl : Cs) (h : s.length ≤ fuel) :
    pyReplaceF fuel s pat repl = pyReplace s pat repl :=
  pyReplaceF_congr fuel s.length s pat repl h le_rfl

theorem pyReplace_nil (pat repl : Cs) : pyReplace [] pat repl = [] := rfl

theorem pyReplace_cons_pos (c : Char) (rest : Cs) (p : Char) (ps repl : Cs)
    (h : (p :: ps).isPrefixOf (c :: rest) = true) :
    pyReplace (c :: rest) (p :: ps) repl
      = repl ++ pyReplace ((c :: rest).drop (p :: ps).length) (p :: ps) repl := by
  show pyReplaceF (rest.length + 1) (c :: rest) (p :: ps) repl = _
  simp only [pyReplaceF, if_pos h]
  rw [pyReplaceF_eq]
  simp only [List.length_drop, List.length_cons]
  omega

theorem pyReplace_cons_neg (c : Char) (rest : Cs) (p : Char) (ps repl : Cs)
    (h : ¬ (p :: ps).isPrefixOf (c :: rest) = true) :
    pyReplace (c :: rest) (p :: ps) repl = c :: pyReplace rest (p :: ps) repl := by
  show pyReplaceF (rest.length + 1) (c :: rest) (p :: ps) repl = _
  simp only [pyReplaceF, if_neg h]
  rw [pyReplaceF_eq _ _ _ _ le_rfl]

-- ---------------- scratch: char classes and prefix facts ----------------

theorem nameChar_ne_open {c : Char} (h : nameChar c = true) : ¬ c = '{' := by
  intro he; subst he; revert h; decide

theorem nameChar_ne_close {c : Char} (h : nameChar c = true) : ¬ c = '}' := by
  intro he; subst he; revert h; decide

theorem nameChar_not_ws {c : Char} (h : nameChar c = true) : wsChar c = false := by
  cases hw : wsChar c
  · rfl
  · exfalso
    simp only [wsChar, Bool.or_eq_true, decide_eq_true_eq] at hw
    rcases hw with ((((h1 | h1) | h1) | h1) | h1) | h1 <;> subst h1 <;> revert h <;> decide

theorem isPrefixOf_append_self (l t : Cs) : l.isPrefixOf (l ++ t) = true := by
  rw [List.isPrefixOf_iff_prefix]
  exact List.prefix_append l t

theorem isPrefixOf_head_ne {c d : Char} (u w : Cs) (h : ¬ c = d) :
    (c :: u).isPrefixOf (d :: w) = false := by
  simp [List.isPrefixOf, h]

/-- Scanning text with no `{` never matches a `{`-headed pattern, so
replacement passes it through. -/
theorem pyReplace_append_no_open (a x ps repl : Cs)
    (ha : ∀ c ∈ a, ¬ c = '{') :
    pyReplace (a ++ x) ('{' :: ps) repl = a ++ pyReplace x ('{' :: ps) repl := by
  induction a with
  | nil => rfl
  | cons c rest ih =>
    have hc : ¬ ('{' :: ps).isPrefixOf (c :: (rest ++ x)) = true := by
      rw [isPrefixOf_head_ne _ _ (fun hh => ha c (by simp) hh.symm)]
      simp
  -- note: (c :: rest) ++ x = c :: (rest ++ x)
    rw [List.cons_append, pyReplace_cons_neg _ _ _ _ _ hc,
      ih (fun y hy => ha y (by simp [hy]))]
    rfl

/-- Distinct wellformed names cannot match each other's token pattern. -/
theorem namesPrefixFalse : ∀ (k n x : Cs),
    (∀ c ∈ k, nameChar c = true) → (∀ c ∈ n, nameChar c = true) → ¬ k = n →
    (k ++ ['}', '}']).isPrefixOf (n ++ '}' :: '}' :: x) = false := by
  intro k
  induction k with
  | nil =>
    intro n x _ hn hne
    cases n with
    | nil => exact absurd rfl hne
    | cons b n' =>
      have hb : nameChar b = true := hn b (by simp)
      simp only [List.nil_append, List.cons_append]
      exact isPrefixOf_head_ne _ _ (fun hh => nameChar_ne_close hb hh.symm)
  | cons a k' ih =>
    intro n x hk hn hne
    cases n with
    | nil =>
      have ha : nameChar a = true := hk a (by simp)
      simp only [List.cons_append, List.nil_append]
      exact isPrefixOf_head_ne _ _ (nameChar_ne_close ha)
    | cons b n' =>
      by_cases hab : a = b
      · subst hab
        have hne' : ¬ k' = n' := fun hh => hne (by rw [hh])
        simp only [List.cons_append, List.isPrefixOf, List.append_eq]
        rw [ih n' x (fun c hc => hk c (by simp [hc])) (fun c hc => hn c (by simp [hc])) hne']
        simp
      · simp only [List.cons_append]
        exact isPrefixOf_head_ne _ _ hab

-- ---------------- scratch: token hit/skip ----------------

theorem wfName_spec {n : Cs} (h : wfName n = true) :
    ¬ n = [] ∧ ∀ c ∈ n, nameChar c = true := by
  simp only [wfName, Bool.and_eq_true, List.all_eq_true] at h
  refine ⟨?_, h.2⟩
  intro he
  have h1 := h.1
  subst he
  simp at h1

theorem noBrace_spec {s : Cs} (h : noBrace s = true) :
    ∀ c ∈ s, ¬ c = '{' ∧ ¬ c = '}' := by
  simp only [noBrace, List.all_eq_true, Bool.and_eq_true, Bool.not_eq_true',
    decide_eq_false_iff_not] at h
  exact h

theorem tokText_append (n y : Cs) : tokText n ++ y = '{' :: '{' :: (n ++ ('}' :: '}' :: y)) := by
  simp [tokText]

theorem tokHit (k x repl : Cs) :
    pyReplace (tokText k ++ x) (tokText k) repl = repl ++ pyReplace x (tokText k) repl := by
  have h1 : tokText k ++ x = '{' :: ('{' :: ((k ++ ['}', '}']) ++ x)) := by simp [tokText]
  rw [h1]
  have hp : tokText k = '{' :: ('{' :: (k ++ ['}', '}'])) := rfl
  rw [hp]
  rw [pyReplace_cons_pos _ _ _ _ _ (by
    rw [← hp, ← h1]
    exact isPrefixOf_append_self _ _)]
  congr 1
  have : ('{' :: ('{' :: ((k ++ ['}', '}']) ++ x))).drop ('{' :: ('{' :: (k ++ ['}', '}']))).length = x := by
    rw [← h1, ← hp]
    exact List.drop_left _ _
  rw [this]

theorem tokSkip (n k x repl : Cs) (hn : wfName n = true) (hk : wfName k = true)
    (hne : ¬ n = k) :
    pyReplace (tokText n ++ x) (tokText k) repl = tokText n ++ pyReplace x (tokText k) repl := by
  obtain ⟨hnn, hna⟩ := wfName_spec hn
  obtain ⟨hkn, hka⟩ := wfName_spec hk
  have hp : tokText k = '{' :: ('{' :: (k ++ ['}', '}'])) := rfl
  -- step 1: first '{'
  have hs1 : ¬ List.isPrefixOf ('{' :: ('{' :: (k ++ ['}', '}'])))
      ('{' :: ('{' :: ((n ++ ['}', '}']) ++ x))) = true := by
    simp only [List.isPrefixOf, List.append_eq]
    have : (k ++ ['}', '}']).isPrefixOf (n ++ ('}' :: '}' :: x)) = false :=
      namesPrefixFalse k n x hka hna (fun hh => hne (hh.symm))
    simp only [List.append_assoc] at this ⊢
    simp [this]
  -- step 2: second char
  obtain ⟨a, n', rfl⟩ : ∃ a n', n = a :: n' := by
    cases n with
    | nil => exact absurd rfl hnn
    | cons a n' => exact ⟨a, n', rfl⟩
  have ha : nameChar a = true := hna a (by simp)
  have ha' : ¬ ('{' = a) := fun hh => nameChar_ne_open ha hh.symm
  have hs2 : ¬ List.isPrefixOf ('{' :: ('{' :: (k ++ ['}', '}'])))
      ('{' :: (((a :: n') ++ ['}', '}']) ++ x)) = true := by
    simp [List.isPrefixOf, ha']
  have hs3 : ¬ List.isPrefixOf ('{' :: ('{' :: (k ++ ['}', '}']))) ('}' :: ('}' :: x)) = true := by
    simp [List.isPrefixOf]
  have hs4 : ¬ List.isPrefixOf ('{' :: ('{' :: (k ++ ['}', '}']))) ('}' :: x) = true := by
    simp [List.isPrefixOf]
  have h1 : tokText (a :: n') ++ x = '{' :: ('{' :: (((a :: n') ++ ['}', '}']) ++ x)) := by
    simp [tokText]
  rw [h1, hp]
  rw [pyReplace_cons_neg _ _ _ _ _ hs1]
  rw [pyReplace_cons_neg _ _ _ _ _ hs2]
  have h2 : ((a :: n') ++ ['}', '}']) ++ x = (a :: n') ++ ('}' :: '}' :: x) := by simp
  rw [h2]
  rw [pyReplace_append_no_open _ _ _ _ (fun c hc => nameChar_ne_open (hna c hc))]
  rw [pyReplace_cons_neg _ _ _ _ _ hs3]
  rw [pyReplace_cons_neg _ _ _ _ _ hs4]
  simp [tokText]

-- ---------------- scratch: jGet append lemmas & main subst lemma ----------------

theorem jGet_append_left {d : StoryRec} {n : Cs} {w : Json} (d2 : StoryRec)
    (h : jGet d n = some w) : jGet (d ++ d2) n = some w := by
  induction d with
  | nil => simp [jGet] at h
  | cons kv rest ih =>
    obtain ⟨k0, v0⟩ := kv
    by_cases h0 : k0 = n
    · simp only [jGet, if_pos h0] at h ⊢
      simpa using h
    · simp only [jGet, if_neg h0] at h ⊢
      simp only [List.cons_append, jGet, if_neg h0] at *
      exact ih h

theorem jGet_append_right {d : StoryRec} {n : Cs} (d2 : StoryRec)
    (h : jGet d n = none) : jGet (d ++ d2) n = jGet d2 n := by
  induction d with
  | nil => simp
  | cons kv rest ih =>
    obtain ⟨k0, v0⟩ := kv
    by_cases h0 : k0 = n
    · simp only [jGet, if_pos h0] at h
      exact Option.noConfusion h
    · simp only [jGet, if_neg h0] at h
      simp only [List.cons_append, jGet, if_neg h0]
      exact ih h

theorem jGet_mem {d : StoryRec} {n : Cs} {w : Json} (h : jGet d n = some w) : (n, w) ∈ d := by
  induction d with
  | nil => simp [jGet] at h
  | cons kv rest ih =>
    obtain ⟨k0, v0⟩ := kv
    by_cases h0 : k0 = n
    · subst h0
      simp [jGet] at h
      subst h
      simp
    · simp only [jGet, if_neg h0] at h
      simp [ih h]

theorem wfData_head {k : Cs} {v : Json} {rest : StoryRec}
    (h : wfData ((k, v) :: rest) = true) :
    wfName k = true ∧ noBrace (pyStr v) = true ∧ wfData rest = true := by
  simp only [wfData, List.all_cons, Bool.and_eq_true] at h
  exact ⟨h.1.1, h.1.2, by simp only [wfData]; exact h.2⟩

theorem wfData_mem {data : StoryRec} {k : Cs} {v : Json}
    (h : wfData data = true) (hm : (k, v) ∈ data) :
    wfName k = true ∧ noBrace (pyStr v) = true := by
  simp only [wfData, List.all_eq_true] at h
  have := h (k, v) hm
  simpa using this

theorem wfTpl_head_lit {s : Cs} {rest : List Tseg} (h : wfTpl (Tseg.lit s :: rest) = true) :
    noBrace s = true ∧ wfTpl rest = true := by
  simp only [wfTpl, List.all_cons, Bool.and_eq_true] at h
  exact ⟨h.1, by simp only [wfTpl]; exact h.2⟩

theorem wfTpl_head_tok {n : Cs} {rest : List Tseg} (h : wfTpl (Tseg.tok n :: rest) = true) :
    wfName n = true ∧ wfTpl rest = true := by
  simp only [wfTpl, List.all_cons, Bool.and_eq_true] at h
  exact ⟨h.1, by simp only [wfTpl]; exact h.2⟩

/-- One `template.replace("{{k}}", str(v))` pass over a partially
substituted wellformed template substitutes exactly the not-yet-substituted
tokens named `k`. -/
theorem pyReplace_renderAfter (k : Cs) (v : Json) (tpl : List Tseg) (done : StoryRec)
    (htpl : wfTpl tpl = true) (hk : wfName k = true)
    (hdone : wfData done = true) :
    pyReplace (renderAfter done tpl) (tokText k) (pyStr v)
      = renderAfter (done ++ [(k, v)]) tpl := by
  induction tpl with
  | nil => rfl
  | cons seg rest ih =>
    cases seg with
    | lit s =>
      obtain ⟨hs, hrest⟩ := wfTpl_head_lit htpl
      have hs' : ∀ c ∈ s, ¬ c = '{' := fun c hc => (noBrace_spec hs c hc).1
      simp only [renderAfter]
      have hpat : tokText k = '{' :: ('{' :: (k ++ ['}', '}'])) := rfl
      rw [hpat, pyReplace_append_no_open _ _ _ _ hs', ← hpat, ih hrest]
    | tok n =>
      obtain ⟨hn, hrest⟩ := wfTpl_head_tok htpl
      simp only [renderAfter]
      cases hj : jGet done n with
      | some w =>
        have hw : noBrace (pyStr w) = true := (wfData_mem hdone (jGet_mem hj)).2
        have hw' : ∀ c ∈ pyStr w, ¬ c = '{' := fun c hc => (noBrace_spec hw c hc).1
        rw [jGet_append_left [(k, v)] hj]
        have hpat : tokText k = '{' :: ('{' :: (k ++ ['}', '}'])) := rfl
        rw [hpat, pyReplace_append_no_open _ _ _ _ hw', ← hpat, ih hrest]
      | none =>
        by_cases hnk : n = k
        · subst hnk
          rw [jGet_append_right [(n, v)] hj]
          simp only [jGet, if_pos rfl]
          rw [tokHit, ih hrest]
          simp
        · rw [jGet_append_right [(k, v)] hj]
          have hkn : ¬ k = n := fun hh => hnk hh.symm
          have hnone : jGet [(k, v)] n = none := by simp [jGet, hkn]
          rw [hnone, tokSkip n k _ _ hn hk hnk, ih hrest]

-- ---------------- scratch: fold lemma ----------------

theorem renderAfter_nil (tpl : List Tseg) : renderAfter [] tpl = renderT tpl := by
  induction tpl with
  | nil => rfl
  | cons seg rest ih =>
    cases seg with
    | lit s => simp [renderAfter, renderT, ih]
    | tok n => simp [renderAfter, renderT, jGet, ih]

theorem wfData_append (a b : StoryRec) (ha : wfData a = true) (hb : wfData b = true) :
    wfData (a ++ b) = true := by
  induction a with
  | nil => exact hb
  | cons kv rest ih =>
    obtain ⟨k0, v0⟩ := kv
    obtain ⟨h1, h2, h3⟩ := wfData_head ha
    simp only [List.cons_append, wfData, List.all_cons, Bool.and_eq_true]
    refine ⟨⟨h1, h2⟩, ?_⟩
    exact ih h3

theorem foldl_replace (tpl : List Tseg) (htpl : wfTpl tpl = true) :
    ∀ (pending done : StoryRec), wfData done = true → wfData pending = true →
    List.foldl (fun t kv => pyReplace t (tokText kv.1) (pyStr kv.2)) (renderAfter done tpl) pending
      = renderAfter (done ++ pending) tpl := by
  intro pending
  induction pending with
  | nil =>
    intro done _ _
    simp
  | cons kv rest ih =>
    intro done hd hp
    obtain ⟨k, v⟩ := kv
    obtain ⟨hk, hv, hrest⟩ := wfData_head hp
    simp only [List.foldl]
    rw [pyReplace_renderAfter k v tpl done htpl hk hd]
    have hd' : wfData (done ++ [(k, v)]) = true :=
      wfData_append done [(k, v)] hd (by simp [wfData, hk, hv])
    have := ih (done ++ [(k, v)]) hd' hrest
    rw [this]
    simp

theorem fill_fst_renderAfter (tpl : List Tseg) (data : StoryRec)
    (htpl : wfTpl tpl = true) (hdata : wfData data = true) :
    (fill_template_strict (renderT tpl) data).1 = renderAfter data tpl := by
  unfold fill_template_strict
  have h0 : wfData ([] : StoryRec) = true := by simp [wfData]
  have := foldl_replace tpl htpl data [] h0 hdata
  rw [renderAfter_nil] at this
  simpa using this

-- ---------------- scratch: scanner ----------------

theorem length_dropWhile_le' (p : Char → Bool) (l : Cs) : (l.dropWhile p).length ≤ l.length := by
  induction l with
  | nil => simp
  | cons c rest ih =>
    by_cases h : p c
    · simp only [List.dropWhile_cons, h, if_true]
      simp only [List.length_cons]
      omega
    · simp [List.dropWhile_cons, h]

theorem tryMatch_shrink {s : Cs} {pr : Cs × Cs} (h : tryMatch s = some pr) :
    pr.2.length < s.length := by
  cases s with
  | nil => simp [tryMatch] at h
  | cons c1 rest1 =>
    cases rest1 with
    | nil => simp [tryMatch] at h
    | cons c2 rest =>
      simp only [tryMatch] at h
      by_cases h1 : c1 = '{'
      · rw [if_pos h1] at h
        by_cases h2 : c2 = '{'
        · rw [if_pos h2] at h
          unfold tryMatchBody at h
          by_cases hname : (rest.dropWhile wsChar).takeWhile nameChar = []
          · rw [if_pos hname] at h
            exact Option.noConfusion h
          · rw [if_neg hname] at h
            have hlen : (((rest.dropWhile wsChar).dropWhile nameChar).dropWhile wsChar).length
                ≤ rest.length := by
              calc (((rest.dropWhile wsChar).dropWhile nameChar).dropWhile wsChar).length
                  ≤ ((rest.dropWhile wsChar).dropWhile nameChar).length :=
                    length_dropWhile_le' _ _
                _ ≤ (rest.dropWhile wsChar).length := length_dropWhile_le' _ _
                _ ≤ rest.length := length_dropWhile_le' _ _
            split at h
            · rename_i r3 heq
              have := Option.some.inj h
              subst this
              simp only [List.length_cons]
              rw [heq] at hlen
              simp only [List.length_cons] at hlen
              omega
            · exact Option.noConfusion h
        · rw [if_neg h2] at h
          exact Option.noConfusion h
      · rw [if_neg h1] at h
        exact Option.noConfusion h

theorem findPHF_congr : ∀ (f1 f2 : Nat) (s : Cs), s.length ≤ f1 → s.length ≤ f2 →
    findPHF f1 s = findPHF f2 s := by
  intro f1
  induction f1 with
  | zero =>
    intro f2 s h1 _
    have hs : s = [] := List.eq_nil_of_length_eq_zero (Nat.le_zero.mp h1)
    subst hs
    cases f2 <;> rfl
  | succ m1 ih =>
    intro f2 s h1 h2
    cases f2 with
    | zero =>
      have hs : s = [] := List.eq_nil_of_length_eq_zero (Nat.le_zero.mp h2)
      subst hs
      rfl
    | succ m2 =>
      cases s with
      | nil => rfl
      | cons c rest =>
        cases hm : tryMatch (c :: rest) with
        | some p =>
          have hlt := tryMatch_shrink hm
          simp only [findPHF, hm]
          simp only [List.length_cons] at h1 h2 hlt
          rw [ih m2 p.2 (by omega) (by omega)]
        | none =>
          simp only [findPHF, hm]
          simp only [List.length_cons] at h1 h2
          rw [ih m2 rest (by omega) (by omega)]

theorem findPHF_eq (fuel : Nat) (s : Cs) (h : s.length ≤ fuel) :
    findPHF fuel s = findPlaceholders s :=
  findPHF_congr fuel s.length s h le_rfl

theorem findPH_cons_some {c : Char} {rest : Cs} {p : Cs × Cs}
    (h : tryMatch (c :: rest) = some p) :
    findPlaceholders (c :: rest) = p.1 :: findPlaceholders p.2 := by
  show findPHF (rest.length + 1) (c :: rest) = _
  simp only [findPHF, h]
  congr 1
  rw [findPHF_eq]
  have := tryMatch_shrink h
  simp only [List.length_cons] at this
  omega

theorem findPH_cons_none {c : Char} {rest : Cs} (h : tryMatch (c :: rest) = none) :
    findPlaceholders (c :: rest) = findPlaceholders rest := by
  show findPHF (rest.length + 1) (c :: rest) = _
  simp only [findPHF, h]
  rw [findPHF_eq _ _ le_rfl]

theorem tryMatch_not_open {c : Char} (u : Cs) (h : ¬ c = '{') : tryMatch (c :: u) = none := by
  cases u with
  | nil => rfl
  | cons c2 rest => simp [tryMatch, h]

-- ---------------- scratch: scanner on rendered templates ----------------

theorem takeWhile_all_append {p : Char → Bool} (a : Cs) (y : Char) (ys : Cs)
    (ha : ∀ c ∈ a, p c = true) (hy : p y = false) :
    (a ++ y :: ys).takeWhile p = a := by
  induction a with
  | nil => simp [List.takeWhile_cons, hy]
  | cons c rest ih =>
    simp only [List.cons_append, List.takeWhile_cons, ha c (by simp), if_true]
    rw [ih (fun x hx => ha x (by simp [hx]))]

theorem dropWhile_all_append {p : Char → Bool} (a : Cs) (y : Char) (ys : Cs)
    (ha : ∀ c ∈ a, p c = true) (hy : p y = false) :
    (a ++ y :: ys).dropWhile p = y :: ys := by
  induction a with
  | nil => simp [List.dropWhile_cons, hy]
  | cons c rest ih =>
    simp only [List.cons_append, List.dropWhile_cons, ha c (by simp), if_true]
    exact ih (fun x hx => ha x (by simp [hx]))

theorem tryMatch_tok (n x : Cs) (hn : wfName n = true) :
    tryMatch (tokText n ++ x) = some (n, x) := by
  obtain ⟨hnn, hna⟩ := wfName_spec hn
  obtain ⟨a, n', rfl⟩ : ∃ a n', n = a :: n' := by
    cases n with
    | nil => exact absurd rfl hnn
    | cons a n' => exact ⟨a, n', rfl⟩
  have ha : nameChar a = true := hna a (by simp)
  have harr : tokText (a :: n') ++ x = '{' :: '{' :: (a :: (n' ++ ('}' :: '}' :: x))) := by
    simp [tokText]
  have houter : ∀ R : Cs, tryMatch ('{' :: '{' :: R) = tryMatchBody R := by
    intro R
    simp [tryMatch]
  have hbody : tryMatchBody (a :: (n' ++ ('}' :: '}' :: x))) = some (a :: n', x) := by
    unfold tryMatchBody
    have hws : List.dropWhile wsChar (a :: (n' ++ ('}' :: '}' :: x)))
        = a :: (n' ++ ('}' :: '}' :: x)) := by
      rw [List.dropWhile_cons]
      simp [nameChar_not_ws ha]
    rw [hws]
    dsimp only
    have htake : List.takeWhile nameChar (a :: (n' ++ ('}' :: '}' :: x))) = a :: n' := by
      have := @takeWhile_all_append nameChar (a :: n') '}' ('}' :: x) hna (by decide)
      simpa using this
    have hdropn : List.dropWhile nameChar (a :: (n' ++ ('}' :: '}' :: x))) = '}' :: '}' :: x := by
      have := @dropWhile_all_append nameChar (a :: n') '}' ('}' :: x) hna (by decide)
      simpa using this
    rw [htake, hdropn]
    have hdw : List.dropWhile wsChar ('}' :: '}' :: x) = '}' :: '}' :: x := by
      have h1 : wsChar '}' = false := by decide
      rw [List.dropWhile_cons]
      simp [h1]
    rw [hdw]
    simp
  rw [harr, houter, hbody]

theorem findPH_append_lit (s x : Cs) (hs : ∀ c ∈ s, ¬ c = '{') :
    findPlaceholders (s ++ x) = findPlaceholders x := by
  induction s with
  | nil => rfl
  | cons c rest ih =>
    have hm : tryMatch (c :: (rest ++ x)) = none := tryMatch_not_open _ (hs c (by simp))
    rw [List.cons_append, findPH_cons_none hm, ih (fun y hy => hs y (by simp [hy]))]

theorem findPH_tok (n x : Cs) (hn : wfName n = true) :
    findPlaceholders (tokText n ++ x) = n :: findPlaceholders x := by
  have harr : tokText n ++ x = '{' :: ('{' :: ((n ++ ['}', '}']) ++ x)) := by simp [tokText]
  have hm : tryMatch ('{' :: ('{' :: ((n ++ ['}', '}']) ++ x))) = some (n, x) := by
    rw [← harr]
    exact tryMatch_tok n x hn
  rw [harr, findPH_cons_some hm]

theorem findPH_renderT (tpl : List Tseg) (htpl : wfTpl tpl = true) :
    findPlaceholders (renderT tpl) = tokenNames tpl := by
  induction tpl with
  | nil => rfl
  | cons seg rest ih =>
    cases seg with
    | lit s =>
      obtain ⟨hs, hrest⟩ := wfTpl_head_lit htpl
      simp only [renderT, tokenNames]
      rw [findPH_append_lit s _ (fun c hc => (noBrace_spec hs c hc).1), ih hrest]
    | tok n =>
      obtain ⟨hn, hrest⟩ := wfTpl_head_tok htpl
      simp only [renderT, tokenNames]
      rw [findPH_tok n _ hn, ih hrest]

-- ---------------- scratch: report lemmas ----------------

theorem mem_insertStr {a x : Cs} {l : List Cs} : a ∈ insertStr x l ↔ a = x ∨ a ∈ l := by
  induction l with
  | nil => simp [insertStr]
  | cons y ys ih =>
    by_cases h : lexLe x y = true
    · simp [insertStr, h]
    · simp only [insertStr]
      rw [if_neg h, List.mem_cons, ih]
      constructor
      · rintro (h1 | h1 | h1)
        · exact Or.inr (by simp [h1])
        · exact Or.inl h1
        · exact Or.inr (by simp [h1])
      · rintro (h1 | h1)
        · exact Or.inr (Or.inl h1)
        · rcases (by simpa using h1 : a = y ∨ a ∈ ys) with h2 | h2
          · exact Or.inl h2
          · exact Or.inr (Or.inr h2)

theorem mem_sortStr {a : Cs} {l : List Cs} : a ∈ sortStr l ↔ a ∈ l := by
  induction l with
  | nil => simp [sortStr]
  | cons x xs ih =>
    simp only [sortStr]
    rw [mem_insertStr, ih]
    simp

theorem containsSub_self_append (m b : Cs) : containsSub m (m ++ b) = true := by
  cases m with
  | nil =>
    cases b with
    | nil => rfl
    | cons c cs => simp [containsSub, List.isPrefixOf]
  | cons c cs =>
    show containsSub (c :: cs) ((c :: cs) ++ b) = true
    have : (c :: cs) ++ b = c :: (cs ++ b) := rfl
    rw [this]
    simp only [containsSub]
    rw [← this, isPrefixOf_append_self]
    simp

theorem containsSub_of_parts (m a b : Cs) : containsSub m (a ++ (m ++ b)) = true := by
  induction a with
  | nil =>
    rw [List.nil_append]
    exact containsSub_self_append m b
  | cons c rest ih =>
    simp only [List.cons_append, containsSub, List.append_eq]
    rw [ih]
    simp

theorem render_decomp {tpl : List Tseg} {p : Cs} (hp : p ∈ tokenNames tpl) :
    ∃ a b, renderT tpl = a ++ (tokText p ++ b) := by
  induction tpl with
  | nil => simp [tokenNames] at hp
  | cons seg rest ih =>
    cases seg with
    | lit s =>
      have hp' : p ∈ tokenNames rest := by simpa [tokenNames] using hp
      obtain ⟨a, b, hab⟩ := ih hp'
      exact ⟨s ++ a, b, by simp [renderT, hab]⟩
    | tok n =>
      rcases (by simpa [tokenNames] using hp : p = n ∨ p ∈ tokenNames rest) with h1 | h1
      · subst h1
        exact ⟨[], renderT rest, by simp [renderT]⟩
      · obtain ⟨a, b, hab⟩ := ih h1
        exact ⟨tokText n ++ a, b, by simp [renderT, hab]⟩

theorem missingFields_iff (tpl : List Tseg) (data : StoryRec)
    (htpl : wfTpl tpl = true) (p : Cs) :
    p ∈ missingFields (renderT tpl) data ↔ (p ∈ tokenNames tpl ∧ jGet data p = none) := by
  unfold missingFields
  rw [mem_sortStr, List.mem_filter, List.mem_dedup, findPH_renderT tpl htpl]
  constructor
  · rintro ⟨h1, h2⟩
    simp only [Bool.and_eq_true, Option.isNone_iff_eq_none] at h2
    exact ⟨h1, h2.2⟩
  · rintro ⟨h1, h2⟩
    refine ⟨h1, ?_⟩
    simp only [Bool.and_eq_true, Option.isNone_iff_eq_none]
    refine ⟨?_, h2⟩
    obtain ⟨a, b, hab⟩ := render_decomp h1
    rw [hab]
    exact containsSub_of_parts _ _ _

-- ---------------------------------------------------------------------------
-- Theorems for claim C6 (Template Filler)
-- ---------------------------------------------------------------------------

/-- Claim C6 (counterexample): tokens are not always replaced by "that
value's textual form": replacement is sequential over the mapping, so a
value containing a later key's token is itself substituted.  On template
`{{a}}` with record `{a: "{{b}}", b: "X"}` the output is `X`, not the value
text `{{b}}`. -/
theorem C6_cx :
    (fill_template_strict "\x7b\x7ba\x7d\x7d".toList
        [("a".toList, Json.str "\x7b\x7bb\x7d\x7d".toList),
         ("b".toList, Json.str "X".toList)]).1
      = "X".toList ∧
    (fill_template_strict "\x7b\x7ba\x7d\x7d".toList
        [("a".toList, Json.str "\x7b\x7bb\x7d\x7d".toList),
         ("b".toList, Json.str "X".toList)]).1
      ≠ "\x7b\x7bb\x7d\x7d".toList := by
  constructor
  · decide
  · decide

/-- Claim C6 (amended): for templates made of brace-free literal text
interleaved with `{{name}}` tokens, and records whose keys are wellformed
names and whose stringified values contain no braces (so no replacement can
create or feed another token), template filling (1) replaces every token
whose name is a record key by that value's textual form and leaves every
token with no matching key verbatim, never failing; (2) finds exactly the
template's token names as placeholders; and (3) reports exactly the token
names that have no matching key. -/
theorem C6_amended (tpl : List Tseg) (data : StoryRec)
    (htpl : wfTpl tpl = true) (hdata : wfData data = true) :
    (fill_template_strict (renderT tpl) data).1 = renderAfter data tpl ∧
    (fill_template_strict (renderT tpl) data).2 = tokenNames tpl ∧
    (∀ p, p ∈ missingFields (renderT tpl) data ↔
      (p ∈ tokenNames tpl ∧ jGet data p = none)) :=
  ⟨fill_fst_renderAfter tpl data htpl hdata,
   findPH_renderT tpl htpl,
   fun p => missingFields_iff tpl data htpl p⟩

/-- Witness for `C6_amended`: the spec's scenario — template
`<h1>{{title}}</h1><p>{{unknownField}}</p>` with record
`{title: "Photosynthesis"}` fills the title, leaves the unknown token
verbatim, and reports exactly `unknownField`. -/
theorem C6_amended_witness :
    wfTpl [Tseg.lit "<h1>".toList, Tseg.tok "title".toList, Tseg.lit "</h1><p>".toList,
      Tseg.tok "unknownField".toList, Tseg.lit "</p>".toList] = true ∧
    wfData [("title".toList, Json.str "Photosynthesis".toList)] = true ∧
    (fill_template_strict
        (renderT [Tseg.lit "<h1>".toList, Tseg.tok "title".toList, Tseg.lit "</h1><p>".toList,
          Tseg.tok "unknownField".toList, Tseg.lit "</p>".toList])
        [("title".toList, Json.str "Photosynthesis".toList)]).1
      = renderAfter [("title".toList, Json.str "Photosynthesis".toList)]
          [Tseg.lit "<h1>".toList, Tseg.tok "title".toList, Tseg.lit "</h1><p>".toList,
           Tseg.tok "unknownField".toList, Tseg.lit "</p>".toList] ∧
    renderAfter [("title".toList, Json.str "Photosynthesis".toList)]
        [Tseg.lit "<h1>".toList, Tseg.tok "title".toList, Tseg.lit "</h1><p>".toList,
         Tseg.tok "unknownField".toList, Tseg.lit "</p>".toList]
      = "<h1>Photosynthesis</h1><p>\x7b\x7bunknownField\x7d\x7d</p>".toList ∧
    missingFields
        (renderT [Tseg.lit "<h1>".toList, Tseg.tok "title".toList, Tseg.lit "</h1><p>".toList,
          Tseg.tok "unknownField".toList, Tseg.lit "</p>".toList])
        [("title".toList, Json.str "Photosynthesis".toList)]
      = ["unknownField".toList] :=
  ⟨by decide, by decide,
   (C6_amended _ _ (by decide) (by decide)).1,
   by decide, by decide⟩
